import Mathlib

/-!
# Shallow embedding of the ffVtax k-mer indexing and matching engine

This file embeds the core of the repository (bloom_filter_handler.py and
sequence_matcher.py) in Lean 4 and proves or refutes the frozen claims
about it.

Modelling conventions:
* Python strings are embedded as `List Char` (abbreviated `Str`); Python
  lists as Lean lists, Python sets and dict key sets as `Finset`.
* `range(n)` with a possibly negative Python int argument is embedded by
  `pyRange : Int → List Nat` (empty for non-positive arguments).
* The pybloom_live `BloomFilter` is a probabilistic membership set: `add`
  records the element exactly (field `bloom` of the handler state), and
  the membership probe `kmer in self.bloom` is embedded as
  `probe h fp x = (x ∈ h.bloom) || fp x` where `fp : Str → Bool` is an
  arbitrary false-positive oracle.  This captures exactly the guarantees
  of a Bloom filter: no false negatives, arbitrary false positives
  (theorems quantify over `fp`).  Capacity limits are not modelled.
* `defaultdict(set)` is embedded as a key set (`ktrKeys`) together with a
  total value function (`ktrVal`, `∅` off the key set); a subscript
  access `d[k]` inserts `k` into the key set (auto-vivification), which
  the embedding of `_match_sequence` reproduces.
* `defaultdict(int)` is embedded as a total function with default `0`
  (the matcher only reads it through `.get(ref, 0)`).
* File I/O is embedded by passing the list of lines of each file; a
  directory is a list of (file name, lines) pairs.  Threading in
  `load_database_multithreaded` is embedded sequentially (the Python
  code relies on the interpreter lock; file order is the walk order).
-/

/-- Characters of a Python string. -/
abbrev Str := List Char

/-- Python `range(n)` where `n` may be a negative `int`: empty in that
case, else `[0, …, n-1]`. -/
def pyRange (n : Int) : List Nat :=
  if n ≤ 0 then [] else List.range n.toNat

/-- Python slice `s[i:i+k]` for `0 ≤ i`. -/
def pySlice (s : Str) (i k : Nat) : Str :=
  (s.drop i).take k

/-- `BloomFilterHandler.extract_kmers` / `SequenceMatcher._extract_kmers`:
`[sequence[i:i + kmer_size] for i in range(len(sequence) - kmer_size + 1)]`. -/
def extract_kmers (k : Nat) (s : Str) : List Str :=
  (pyRange ((s.length : Int) - (k : Int) + 1)).map (fun i => pySlice s i k)

theorem pyRange_nonpos {n : Int} (h : n ≤ 0) : pyRange n = [] := by
  simp [pyRange, h]

theorem pyRange_pos {n : Int} (h : 0 < n) : pyRange n = List.range n.toNat := by
  simp [pyRange, not_le.mpr h]

theorem extract_kmers_eq_of_le {k : Nat} {s : Str} (h : k ≤ s.length) :
    extract_kmers k s = (List.range (s.length - k + 1)).map (fun i => pySlice s i k) := by
  have h1 : (0 : Int) < (s.length : Int) - (k : Int) + 1 := by omega
  have h2 : ((s.length : Int) - (k : Int) + 1).toNat = s.length - k + 1 := by omega
  rw [extract_kmers, pyRange_pos h1, h2]

/-- Length of the window starting at offset `i ≤ L - k`. -/
theorem pySlice_length {s : Str} {i k : Nat} (h : i + k ≤ s.length) :
    (pySlice s i k).length = k := by
  simp [pySlice]
  omega

/-- C3: for every sequence of length `L` and every `k ≤ L`, k-mer
extraction returns exactly `L-k+1` substrings, ordered by starting
offset `0` through `L-k` with stride 1 (the `i`-th element is the slice
starting at offset `i`), each of length `k`; for `L < k` it returns the
empty list. -/
theorem extract_kmers_spec (k : Nat) (s : Str) :
    (k ≤ s.length →
      (extract_kmers k s).length = s.length - k + 1 ∧
      extract_kmers k s = (List.range (s.length - k + 1)).map (fun i => pySlice s i k) ∧
      ∀ w ∈ extract_kmers k s, w.length = k) ∧
    (s.length < k → extract_kmers k s = []) := by
  constructor
  · intro hk
    refine ⟨?_, extract_kmers_eq_of_le hk, ?_⟩
    · rw [extract_kmers_eq_of_le hk]
      simp
    · intro w hw
      rw [extract_kmers_eq_of_le hk] at hw
      simp only [List.mem_map, List.mem_range] at hw
      obtain ⟨i, hi, rfl⟩ := hw
      exact pySlice_length (by omega)
  · intro hk
    have h1 : (s.length : Int) - (k : Int) + 1 ≤ 0 := by omega
    rw [extract_kmers, pyRange_nonpos h1]
    rfl

/-- Witness for C3 at the concrete inputs `s = "ACGTA"`, `k = 3`
(populated case) and `k = 9` (empty case), with both hypotheses
discharged by computation. -/
theorem extract_kmers_spec_witness :
    ((extract_kmers 3 ("ACGTA".toList)).length = ("ACGTA".toList).length - 3 + 1 ∧
      extract_kmers 3 ("ACGTA".toList) =
        (List.range (("ACGTA".toList).length - 3 + 1)).map (fun i => pySlice ("ACGTA".toList) i 3) ∧
      ∀ w ∈ extract_kmers 3 ("ACGTA".toList), w.length = 3) ∧
    extract_kmers 9 ("ACGTA".toList) = [] :=
  ⟨(extract_kmers_spec 3 ("ACGTA".toList)).1 (by decide),
   (extract_kmers_spec 9 ("ACGTA".toList)).2 (by decide)⟩

/-- State of a `BloomFilterHandler` (bloom_filter_handler.py).
`bloom` is the exact set of elements inserted into the probabilistic
membership set; `ktrKeys`/`ktrVal` embed the `defaultdict(set)`
`kmer_to_reference` (key set plus total value function, `∅` off the key
set); `reference_kmer_count` embeds the `defaultdict(int)` read through
`.get(ref, 0)`; `reference_gca_map` and `reference_sequences` embed the
plain dicts. -/
structure Handler where
  kmer_size : Nat
  bloom : Finset Str
  ktrKeys : Finset Str
  ktrVal : Str → Finset Str
  reference_kmer_count : Str → Nat
  reference_gca_map : Str → Option Str
  reference_sequences : Str → Option Str

/-- The membership probe `kmer in self.bloom`: true for every inserted
element (no false negatives), and additionally wherever the
false-positive oracle `fp` says so. -/
def probe (h : Handler) (fp : Str → Bool) (x : Str) : Bool :=
  (x ∈ h.bloom) || fp x

/-- `BloomFilterHandler.get_reference_kmers`: the k-mers whose
`kmer_to_reference` entry contains `ref`, scanning the dict's items. -/
def get_reference_kmers (h : Handler) (ref : Str) : Finset Str :=
  h.ktrKeys.filter (fun x => ref ∈ h.ktrVal x)

/-- One output row of `SequenceMatcher._match_sequence` (the CSV columns;
`jacc`/`qcov` carry the computed values as exact rationals). -/
structure Row where
  seqName : Str
  totalInputKmers : Nat
  reference : Str
  matchedKmers : Nat
  referenceTotalKmers : Nat
  gcaName : Str
  jacc : ℚ
  qcov : ℚ
deriving DecidableEq

/-- The deduplicated query k-mer set `set(self._extract_kmers(...))`. -/
def queryKmerSet (h : Handler) (data : Str) : Finset Str :=
  (extract_kmers h.kmer_size data).toFinset

/-- `reference_kmer_matches[ref]` after the probe loop of
`_match_sequence`: the query k-mers that probe as present and whose
`kmer_to_reference` entry contains `ref`. -/
def matchedSet (h : Handler) (fp : Str → Bool) (q : Finset Str) (ref : Str) : Finset Str :=
  q.filter (fun x => probe h fp x = true ∧ ref ∈ h.ktrVal x)

/-- The references that receive at least one matched k-mer (the key set
of `reference_kmer_matches`). -/
def matchedRefs (h : Handler) (fp : Str → Bool) (q : Finset Str) : Finset Str :=
  (q.filter (fun x => probe h fp x = true)).biUnion h.ktrVal

/-- The row `_match_sequence` writes for reference `ref`. -/
def mkRow (h : Handler) (fp : Str → Bool) (name : Str) (q : Finset Str) (ref : Str) : Row :=
  let rset := get_reference_kmers h ref
  let jq : ℚ × ℚ :=
    if 0 < q.card ∧ 0 < rset.card then
      (((q ∩ rset).card : ℚ) / ((q ∪ rset).card : ℚ),
       ((q ∩ rset).card : ℚ) / (rset.card : ℚ))
    else (0, 0)
  { seqName := name
    totalInputKmers := q.card
    reference := ref
    matchedKmers := (matchedSet h fp q ref).card
    referenceTotalKmers := h.reference_kmer_count ref
    gcaName := (h.reference_gca_map ref).getD ("Unknown".toList)
    jacc := jq.1
    qcov := jq.2 }

/-- The set of rows `_match_sequence` emits for one query record. -/
def matchRows (h : Handler) (fp : Str → Bool) (name : Str) (data : Str) : Finset Row :=
  (matchedRefs h fp (queryKmerSet h data)).image (mkRow h fp name (queryKmerSet h data))

/-- The handler state after `_match_sequence` on one query record: the
probe loop's subscript access `self.bloom_filter_handler.kmer_to_reference[kmer]`
auto-vivifies every probe-positive query k-mer as a key of the
`defaultdict` (with value `∅` when absent); nothing else changes. -/
def matchStateAfter (h : Handler) (fp : Str → Bool) (data : Str) : Handler :=
  { h with ktrKeys := h.ktrKeys ∪ (queryKmerSet h data).filter (fun x => probe h fp x = true) }

/-- `SequenceMatcher.match_sequences` over an already-parsed query
stream: the per-query row sets in stream order, and the final handler
state. -/
def match_sequences (h : Handler) (fp : Str → Bool) (queries : List (Str × Str)) :
    List (Finset Row) × Handler :=
  queries.foldl
    (fun acc q => (acc.1 ++ [matchRows acc.2 fp q.1 q.2], matchStateAfter acc.2 fp q.2))
    ([], h)

/-- The dict `save_bloom_filter` pickles (its five entries). -/
structure SavedData where
  bloom : Finset Str
  ktrKeys : Finset Str
  ktrVal : Str → Finset Str
  reference_kmer_count : Str → Nat
  reference_gca_map : Str → Option Str
  reference_sequences : Str → Option Str

/-- `BloomFilterHandler.save_bloom_filter`: serializes the membership
set and the four maps as one unit (pickle is faithful, so the saved
datum is the record of the saved fields). -/
def save_bloom_filter (h : Handler) : SavedData :=
  { bloom := h.bloom
    ktrKeys := h.ktrKeys
    ktrVal := h.ktrVal
    reference_kmer_count := h.reference_kmer_count
    reference_gca_map := h.reference_gca_map
    reference_sequences := h.reference_sequences }

/-- `BloomFilterHandler.load_bloom_filter` on handler `h0`: restores the
five saved attributes into `h0`; `kmer_size` (and `factor`,
`error_rate`) are not persisted and keep `h0`'s values. -/
def load_bloom_filter (h0 : Handler) (d : SavedData) : Handler :=
  { kmer_size := h0.kmer_size
    bloom := d.bloom
    ktrKeys := d.ktrKeys
    ktrVal := d.ktrVal
    reference_kmer_count := d.reference_kmer_count
    reference_gca_map := d.reference_gca_map
    reference_sequences := d.reference_sequences }

/-- Python `str.strip()`: remove leading and trailing whitespace. -/
def pyStrip (s : Str) : Str :=
  ((s.dropWhile Char.isWhitespace).reverse.dropWhile Char.isWhitespace).reverse

/-- Python `line.startswith('>')`. -/
def lineIsHeader (s : Str) : Bool :=
  match s with
  | c :: _ => c = '>'
  | [] => false

/-- `BloomFilterHandler._extract_reference_name`: the first
whitespace-delimited token of the header with the marker stripped
(`header_line.split()[0][1:]`); a line missing the marker warns and
yields `"Unknown"`. -/
def extract_reference_name (line : Str) : Str :=
  if lineIsHeader line then (line.takeWhile (fun c => ¬ c.isWhitespace)).drop 1
  else "Unknown".toList

/-- `BloomFilterHandler._count_kmers_in_sequence`. -/
def count_kmers_in_sequence (k : Nat) (s : Str) : Nat :=
  if k ≤ s.length then s.length - k + 1 else 0

/-- The accumulation loop of `BloomFilterHandler.estimate_kmers`: blank
lines are skipped, a header line flushes the accumulated sequence into
the count, other lines extend the accumulated sequence; the final
accumulated sequence is flushed at end of file. -/
def estimateLoop (k : Nat) : List Str → Str → Nat
  | [], seq => count_kmers_in_sequence k seq
  | l :: ls, seq =>
    let s := pyStrip l
    if s = [] then estimateLoop k ls seq
    else if lineIsHeader s then count_kmers_in_sequence k seq + estimateLoop k ls []
    else estimateLoop k ls (seq ++ s)

/-- `BloomFilterHandler.estimate_kmers` on the lines of one file. -/
def estimate_kmers (k : Nat) (lines : List Str) : Nat :=
  estimateLoop k lines []

/-- Python truthiness of `current_reference` (a `str` or `None`). -/
def truthyRef : Option Str → Bool
  | none => false
  | some r => ¬ r.isEmpty

/-- `_add_kmers_to_bloom`'s return value: `len(self.extract_kmers(sequence))`. -/
def addKmersCount (k : Nat) (s : Str) : Nat :=
  (extract_kmers k s).length

/-- The k-mer counting part of the `_process_file_kmers` loop
(`actual_kmer_count`): a header line flushes the accumulated record —
only when a truthy reference name is current and sequence data has
accumulated — and replaces the current reference name; any other line
(blank ones included) is appended to the accumulated sequence data. -/
def buildCountLoop (k : Nat) : List Str → Option Str → List Str → Nat
  | [], cur, sd =>
    if truthyRef cur ∧ sd ≠ [] then addKmersCount k sd.flatten else 0
  | l :: ls, cur, sd =>
    let s := pyStrip l
    if lineIsHeader s then
      if truthyRef cur ∧ sd ≠ [] then
        addKmersCount k sd.flatten + buildCountLoop k ls (some (extract_reference_name s)) []
      else buildCountLoop k ls (some (extract_reference_name s)) sd
    else buildCountLoop k ls cur (sd ++ [s])

/-- The k-mer count returned by `_process_file_kmers` for one file. -/
def process_file_count (k : Nat) (lines : List Str) : Nat :=
  buildCountLoop k lines none []

/-- `path.endswith(suffix)` for the relevant extensions. -/
def endsWithS (p : Str) (suffix : String) : Bool :=
  suffix.toList.isSuffixOf p

/-- The extension filter of `_estimate_total_kmers_in_db`:
`.fna` or `.fna.gz`. -/
def isEstimatedFile (p : Str) : Bool :=
  endsWithS p ".fna" || endsWithS p ".fna.gz"

/-- The extension filter of `load_database_multithreaded`:
`.fna`, `.fna.gz`, `.fasta` or `.fasta.gz`. -/
def isBuildFile (p : Str) : Bool :=
  endsWithS p ".fna" || endsWithS p ".fna.gz" || endsWithS p ".fasta" || endsWithS p ".fasta.gz"

/-- A directory: the walked files as (path, lines) pairs. -/
abbrev Dir := List (Str × List Str)

/-- `BloomFilterHandler._estimate_total_kmers_in_db`. -/
def estimate_total_kmers_in_db (k : Nat) (d : Dir) : Nat :=
  ((d.filter (fun f => isEstimatedFile f.1)).map (fun f => estimate_kmers k f.2)).sum

/-- The total k-mer count ingested by the build pass over a directory
(the sum of the `_process_file_kmers` return values over the files the
build dispatches). -/
def build_ingested_total (k : Nat) (d : Dir) : Nat :=
  ((d.filter (fun f => isBuildFile f.1)).map (fun f => process_file_count k f.2)).sum

/-- `BloomFilterHandler._extract_gca_from_filename`, tried at one
position: parse `GCA_<digits>.<digits>` (greedy digit runs, as the
regex `GCA_\d+\.\d+` matches here). -/
def gcaAt (s : Str) : Option Str :=
  match s with
  | 'G' :: 'C' :: 'A' :: '_' :: rest =>
    let d1 := rest.takeWhile Char.isDigit
    if d1 = [] then none
    else
      match rest.drop d1.length with
      | '.' :: rest2 =>
        let d2 := rest2.takeWhile Char.isDigit
        if d2 = [] then none
        else some ((('G' :: 'C' :: 'A' :: '_' :: d1) ++ ['.']) ++ d2)
      | _ => none
  | _ => none

/-- `re.search(r'GCA_\d+\.\d+', file_path)`: the leftmost match, else
`"Unknown"`. -/
def extract_gca_from_filename (p : Str) : Str :=
  match p with
  | [] => "Unknown".toList
  | _ :: rest =>
    match gcaAt p with
    | some g => g
    | none => extract_gca_from_filename rest

/-- `BloomFilterHandler._add_kmers_to_bloom` on the handler state:
every extracted k-mer is inserted into the membership set and its
`kmer_to_reference` entry gains the reference name; the reference's raw
count grows by the number of extracted k-mers (duplicates included). -/
def add_kmers_to_bloom (h : Handler) (sequence : Str) (ref : Str) : Handler :=
  let kmers := extract_kmers h.kmer_size sequence
  { h with
    bloom := h.bloom ∪ kmers.toFinset
    ktrKeys := h.ktrKeys ∪ kmers.toFinset
    ktrVal := fun x => if x ∈ kmers then insert ref (h.ktrVal x) else h.ktrVal x
    reference_kmer_count := fun r =>
      if r = ref then h.reference_kmer_count r + kmers.length else h.reference_kmer_count r }

/-- `self.reference_gca_map[current_reference] = gca_name`. -/
def set_gca (h : Handler) (name gca : Str) : Handler :=
  { h with reference_gca_map := fun r => if r = name then some gca else h.reference_gca_map r }

/-- The state-updating loop of `_process_file_kmers` (`gca` is the
accession extracted once from the file name): a header line flushes the
accumulated record when a truthy reference is current and data has
accumulated, then records the new reference's accession; other lines
accumulate as sequence data; the final record is flushed when a truthy
reference is current. -/
def processLoop (gca : Str) : List Str → Handler → Option Str → List Str → Handler
  | [], h, cur, sd =>
    match cur with
    | some r => if ¬ r.isEmpty ∧ sd ≠ [] then add_kmers_to_bloom h sd.flatten r else h
    | none => h
  | l :: ls, h, cur, sd =>
    let s := pyStrip l
    if lineIsHeader s then
      let name := extract_reference_name s
      let flush := truthyRef cur ∧ sd ≠ []
      let h1 :=
        if flush then
          add_kmers_to_bloom h sd.flatten ((cur.getD []))
        else h
      processLoop gca ls (set_gca h1 name gca) (some name) (if flush then [] else sd)
    else processLoop gca ls h cur (sd ++ [s])

/-- `BloomFilterHandler._process_file_kmers` on the handler state. -/
def process_file_state (gca : Str) (h : Handler) (lines : List Str) : Handler :=
  processLoop gca lines h none []

/-- The fresh handler `BloomFilterHandler(kmer_size=k, …)` with the
membership set initialized empty (`_initialize_bloom_filter`). -/
def freshHandler (k : Nat) : Handler :=
  { kmer_size := k
    bloom := ∅
    ktrKeys := ∅
    ktrVal := fun _ => ∅
    reference_kmer_count := fun _ => 0
    reference_gca_map := fun _ => none
    reference_sequences := fun _ => none }

/-- `BloomFilterHandler.load_database_multithreaded` from a fresh
handler: estimate the total k-mer volume (raising when it is zero,
embedded as `none`), then process every qualifying file. -/
def load_database_multithreaded (k : Nat) (d : Dir) : Option Handler :=
  if 0 < estimate_total_kmers_in_db k d then
    some ((d.filter (fun f => isBuildFile f.1)).foldl
      (fun h f => process_file_state (extract_gca_from_filename f.1) h f.2) (freshHandler k))
  else none

/-- The directory of C6: one file holding the single reference `ref1`
with body `ACGTACGT`. -/
def c6dir : Dir := [("db/ref1.fna".toList, [">ref1".toList, "ACGTACGT".toList])]

/-- The index built over `c6dir` with `k = 3`. -/
def c6handler : Handler := (load_database_multithreaded 3 c6dir).getD (freshHandler 3)

/-- The single row the matcher emits in C6 (no membership-set false
positives needed: every queried k-mer is genuinely present). -/
def c6row : Row :=
  mkRow c6handler (fun _ => false) ("q".toList)
    (queryKmerSet c6handler ("ACGTACGT".toList)) ("ref1".toList)

/-- C6: building over the single reference `ref1` with body `ACGTACGT`
and `k = 3` succeeds and yields `raw_count("ref1") = 6` and the
deduplicated reference k-mer set `{ACG, CGT, GTA, TAC}` of size 4;
matching the query `ACGTACGT` with the same `k` emits exactly one row,
for `ref1`, with Total Input k-mers 4, Matched k-mers 4, Reference
Total k-mers 6, `Jacc = 1` (printed `1.0000`) and `Qcov = 1` (printed
`1.0000`). -/
theorem build_match_example_ref1 :
    (load_database_multithreaded 3 c6dir).isSome = true ∧
    c6handler.reference_kmer_count ("ref1".toList) = 6 ∧
    get_reference_kmers c6handler ("ref1".toList)
      = {"ACG".toList, "CGT".toList, "GTA".toList, "TAC".toList} ∧
    (get_reference_kmers c6handler ("ref1".toList)).card = 4 ∧
    matchRows c6handler (fun _ => false) ("q".toList) ("ACGTACGT".toList) = {c6row} ∧
    c6row.seqName = "q".toList ∧
    c6row.totalInputKmers = 4 ∧
    c6row.reference = "ref1".toList ∧
    c6row.matchedKmers = 4 ∧
    c6row.referenceTotalKmers = 6 ∧
    c6row.jacc = 1 ∧
    c6row.qcov = 1 := by
  refine ⟨by decide, by decide, by decide, by decide, ?_, by decide, by decide, by decide,
    by decide, by decide, ?_, ?_⟩
  · have hrefs : matchedRefs c6handler (fun _ => false)
        (queryKmerSet c6handler ("ACGTACGT".toList)) = {"ref1".toList} := by decide
    rw [matchRows, hrefs, Finset.image_singleton]
    rfl
  · have h1 : (queryKmerSet c6handler ("ACGTACGT".toList) ∩
        get_reference_kmers c6handler ("ref1".toList)).card = 4 := by decide
    have h2 : (queryKmerSet c6handler ("ACGTACGT".toList) ∪
        get_reference_kmers c6handler ("ref1".toList)).card = 4 := by decide
    have h3 : (queryKmerSet c6handler ("ACGTACGT".toList)).card = 4 := by decide
    have h4 : (get_reference_kmers c6handler ("ref1".toList)).card = 4 := by decide
    show (mkRow c6handler (fun _ => false) ("q".toList)
      (queryKmerSet c6handler ("ACGTACGT".toList)) ("ref1".toList)).jacc = 1
    simp only [mkRow]
    rw [h1, h2, h3, h4]
    norm_num
  · have h1 : (queryKmerSet c6handler ("ACGTACGT".toList) ∩
        get_reference_kmers c6handler ("ref1".toList)).card = 4 := by decide
    have h2 : (queryKmerSet c6handler ("ACGTACGT".toList) ∪
        get_reference_kmers c6handler ("ref1".toList)).card = 4 := by decide
    have h3 : (queryKmerSet c6handler ("ACGTACGT".toList)).card = 4 := by decide
    have h4 : (get_reference_kmers c6handler ("ref1".toList)).card = 4 := by decide
    show (mkRow c6handler (fun _ => false) ("q".toList)
      (queryKmerSet c6handler ("ACGTACGT".toList)) ("ref1".toList)).qcov = 1
    simp only [mkRow]
    rw [h1, h2, h3, h4]
    norm_num

theorem mkRow_reference (h : Handler) (fp : Str → Bool) (name : Str) (q : Finset Str) (ref : Str) :
    (mkRow h fp name q ref).reference = ref := rfl

theorem mkRow_matchedKmers (h : Handler) (fp : Str → Bool) (name : Str) (q : Finset Str)
    (ref : Str) : (mkRow h fp name q ref).matchedKmers = (matchedSet h fp q ref).card := rfl

theorem mkRow_scores_pos (h : Handler) (fp : Str → Bool) (name : Str) (q : Finset Str) (ref : Str)
    (hq : 0 < q.card) (hr : 0 < (get_reference_kmers h ref).card) :
    (mkRow h fp name q ref).jacc
      = ((q ∩ get_reference_kmers h ref).card : ℚ) / ((q ∪ get_reference_kmers h ref).card : ℚ) ∧
    (mkRow h fp name q ref).qcov
      = ((q ∩ get_reference_kmers h ref).card : ℚ) / ((get_reference_kmers h ref).card : ℚ) := by
  constructor
  · show (if 0 < q.card ∧ 0 < (get_reference_kmers h ref).card then _ else ((0 : ℚ), (0 : ℚ))).1 = _
    rw [if_pos ⟨hq, hr⟩]
  · show (if 0 < q.card ∧ 0 < (get_reference_kmers h ref).card then _ else ((0 : ℚ), (0 : ℚ))).2 = _
    rw [if_pos ⟨hq, hr⟩]

theorem mkRow_scores_zero (h : Handler) (fp : Str → Bool) (name : Str) (q : Finset Str) (ref : Str)
    (hzero : q.card = 0 ∨ (get_reference_kmers h ref).card = 0) :
    (mkRow h fp name q ref).jacc = 0 ∧ (mkRow h fp name q ref).qcov = 0 := by
  have hneg : ¬ (0 < q.card ∧ 0 < (get_reference_kmers h ref).card) := by omega
  constructor
  · show (if 0 < q.card ∧ 0 < (get_reference_kmers h ref).card then _ else ((0 : ℚ), (0 : ℚ))).1 = 0
    rw [if_neg hneg]
  · show (if 0 < q.card ∧ 0 < (get_reference_kmers h ref).card then _ else ((0 : ℚ), (0 : ℚ))).2 = 0
    rw [if_neg hneg]

theorem mem_matchedRefs_iff (h : Handler) (fp : Str → Bool) (q : Finset Str) (ref : Str) :
    ref ∈ matchedRefs h fp q ↔ ∃ x ∈ q, probe h fp x = true ∧ ref ∈ h.ktrVal x := by
  simp only [matchedRefs, Finset.mem_biUnion, Finset.mem_filter]
  constructor
  · rintro ⟨x, ⟨hxq, hxp⟩, hxv⟩
    exact ⟨x, hxq, hxp, hxv⟩
  · rintro ⟨x, hxq, hxp, hxv⟩
    exact ⟨x, ⟨hxq, hxp⟩, hxv⟩

theorem matchedSet_nonempty_of_mem (h : Handler) (fp : Str → Bool) (q : Finset Str) (ref : Str)
    (href : ref ∈ matchedRefs h fp q) : 0 < (matchedSet h fp q ref).card := by
  obtain ⟨x, hxq, hxp, hxv⟩ := (mem_matchedRefs_iff h fp q ref).mp href
  exact Finset.card_pos.mpr ⟨x, Finset.mem_filter.mpr ⟨hxq, hxp, hxv⟩⟩

/-- C2: for every emitted (query, reference) row, with `Q` the query's
deduplicated k-mer set and `R = get_reference_kmers(reference)` the
deduplicated reference k-mer set, the reported `Jacc` equals
`|Q ∩ R| / |Q ∪ R|` and `Qcov` equals `|Q ∩ R| / |R|` (these exact
rational values are what the 4-decimal formatting prints), both are `0`
when either `Q` or `R` is empty, and a row is emitted only for
references with at least one matched k-mer. -/
theorem emitted_row_scores_spec (h : Handler) (fp : Str → Bool) (name data : Str) (row : Row)
    (hrow : row ∈ matchRows h fp name data) :
    (0 < (queryKmerSet h data).card ∧ 0 < (get_reference_kmers h row.reference).card →
      row.jacc = ((queryKmerSet h data ∩ get_reference_kmers h row.reference).card : ℚ) /
        ((queryKmerSet h data ∪ get_reference_kmers h row.reference).card : ℚ) ∧
      row.qcov = ((queryKmerSet h data ∩ get_reference_kmers h row.reference).card : ℚ) /
        ((get_reference_kmers h row.reference).card : ℚ)) ∧
    ((queryKmerSet h data).card = 0 ∨ (get_reference_kmers h row.reference).card = 0 →
      row.jacc = 0 ∧ row.qcov = 0) ∧
    0 < row.matchedKmers := by
  rw [matchRows] at hrow
  obtain ⟨ref, href, rfl⟩ := Finset.mem_image.mp hrow
  rw [mkRow_reference]
  refine ⟨?_, ?_, ?_⟩
  · intro hpos
    exact mkRow_scores_pos h fp name (queryKmerSet h data) ref hpos.1 hpos.2
  · intro hzero
    exact mkRow_scores_zero h fp name (queryKmerSet h data) ref hzero
  · rw [mkRow_matchedKmers]
    exact matchedSet_nonempty_of_mem h fp (queryKmerSet h data) ref href

/-- Witness for C2 at the concrete C6 instance (handler built over
`ref1`/`ACGTACGT`, query `ACGTACGT`, `k = 3`), with the row-membership
hypothesis discharged by computation. -/
theorem emitted_row_scores_spec_witness :
    (0 < (queryKmerSet c6handler ("ACGTACGT".toList)).card ∧
        0 < (get_reference_kmers c6handler c6row.reference).card →
      c6row.jacc = ((queryKmerSet c6handler ("ACGTACGT".toList) ∩
          get_reference_kmers c6handler c6row.reference).card : ℚ) /
        ((queryKmerSet c6handler ("ACGTACGT".toList) ∪
          get_reference_kmers c6handler c6row.reference).card : ℚ) ∧
      c6row.qcov = ((queryKmerSet c6handler ("ACGTACGT".toList) ∩
          get_reference_kmers c6handler c6row.reference).card : ℚ) /
        ((get_reference_kmers c6handler c6row.reference).card : ℚ)) ∧
    ((queryKmerSet c6handler ("ACGTACGT".toList)).card = 0 ∨
        (get_reference_kmers c6handler c6row.reference).card = 0 →
      c6row.jacc = 0 ∧ c6row.qcov = 0) ∧
    0 < c6row.matchedKmers := by
  refine emitted_row_scores_spec c6handler (fun _ => false) ("q".toList) ("ACGTACGT".toList)
    c6row ?_
  have hrefs : matchedRefs c6handler (fun _ => false)
      (queryKmerSet c6handler ("ACGTACGT".toList)) = {"ref1".toList} := by decide
  rw [matchRows, hrefs, Finset.image_singleton]
  exact Finset.mem_singleton.mpr rfl

/-- The `defaultdict` representation invariant: k-mers that are not keys
of `kmer_to_reference` map to the empty reference set. -/
def DDInv (h : Handler) : Prop := ∀ x, x ∉ h.ktrKeys → h.ktrVal x = ∅

/-- The catalog/membership-set invariant: every key of the reverse index
has been inserted into the membership set. -/
def KeysInBloom (h : Handler) : Prop := ∀ x ∈ h.ktrKeys, x ∈ h.bloom

theorem ddInv_addKmers {h : Handler} (s r : Str) (hdd : DDInv h) :
    DDInv (add_kmers_to_bloom h s r) := by
  intro x hx
  simp only [add_kmers_to_bloom, Finset.mem_union, List.mem_toFinset, not_or] at hx ⊢
  rw [if_neg hx.2]
  exact hdd x hx.1

theorem keysInBloom_addKmers {h : Handler} (s r : Str) (hkb : KeysInBloom h) :
    KeysInBloom (add_kmers_to_bloom h s r) := by
  intro x hx
  simp only [add_kmers_to_bloom, Finset.mem_union] at hx ⊢
  rcases hx with hx | hx
  · exact Or.inl (hkb x hx)
  · exact Or.inr hx

theorem ddInv_set_gca {h : Handler} (name gca : Str) (hdd : DDInv h) :
    DDInv (set_gca h name gca) := hdd

theorem keysInBloom_set_gca {h : Handler} (name gca : Str) (hkb : KeysInBloom h) :
    KeysInBloom (set_gca h name gca) := hkb

theorem ddInv_processLoop (gca : Str) (lines : List Str) :
    ∀ (h : Handler) (cur : Option Str) (sd : List Str), DDInv h →
      DDInv (processLoop gca lines h cur sd) := by
  induction lines with
  | nil =>
    intro h cur sd hdd
    match cur with
    | none => exact hdd
    | some r =>
      show DDInv (if ¬ r.isEmpty ∧ sd ≠ [] then add_kmers_to_bloom h sd.flatten r else h)
      split
      · exact ddInv_addKmers _ _ hdd
      · exact hdd
  | cons l ls ih =>
    intro h cur sd hdd
    show DDInv (if lineIsHeader (pyStrip l) then _ else _)
    split
    · apply ih
      apply ddInv_set_gca
      split
      · exact ddInv_addKmers _ _ hdd
      · exact hdd
    · exact ih h cur (sd ++ [pyStrip l]) hdd

theorem keysInBloom_processLoop (gca : Str) (lines : List Str) :
    ∀ (h : Handler) (cur : Option Str) (sd : List Str), KeysInBloom h →
      KeysInBloom (processLoop gca lines h cur sd) := by
  induction lines with
  | nil =>
    intro h cur sd hkb
    match cur with
    | none => exact hkb
    | some r =>
      show KeysInBloom (if ¬ r.isEmpty ∧ sd ≠ [] then add_kmers_to_bloom h sd.flatten r else h)
      split
      · exact keysInBloom_addKmers _ _ hkb
      · exact hkb
  | cons l ls ih =>
    intro h cur sd hkb
    show KeysInBloom (if lineIsHeader (pyStrip l) then _ else _)
    split
    · apply ih
      apply keysInBloom_set_gca
      split
      · exact keysInBloom_addKmers _ _ hkb
      · exact hkb
    · exact ih h cur (sd ++ [pyStrip l]) hkb

theorem foldl_preserve {α : Type} (P : Handler → Prop) (f : Handler → α → Handler)
    (hf : ∀ h a, P h → P (f h a)) :
    ∀ (l : List α) (h : Handler), P h → P (l.foldl f h) := by
  intro l
  induction l with
  | nil => intro h hP; exact hP
  | cons a as ih => intro h hP; exact ih (f h a) (hf h a hP)

theorem ddInv_load_database {k : Nat} {d : Dir} {h : Handler}
    (hload : load_database_multithreaded k d = some h) : DDInv h := by
  rw [load_database_multithreaded] at hload
  split at hload
  · cases hload
    exact foldl_preserve DDInv _
      (fun h f hP => ddInv_processLoop _ _ h none [] hP) _ _
      (fun x _ => rfl)
  · cases hload

theorem keysInBloom_load_database {k : Nat} {d : Dir} {h : Handler}
    (hload : load_database_multithreaded k d = some h) : KeysInBloom h := by
  rw [load_database_multithreaded] at hload
  split at hload
  · cases hload
    exact foldl_preserve KeysInBloom _
      (fun h f hP => keysInBloom_processLoop _ _ h none [] hP) _ _
      (fun x hx => absurd hx (Finset.not_mem_empty x))
  · cases hload

/-- C8: after a successful build, every k-mer that appears as a key of
the reverse index `kmer_to_reference` was also inserted into the
probabilistic membership set, so every catalogued k-mer probes as
present (no false negatives for attribution), whatever the
false-positive oracle. -/
theorem catalog_subset_membership (k : Nat) (d : Dir) (h : Handler)
    (hload : load_database_multithreaded k d = some h) (fp : Str → Bool) :
    (∀ x ∈ h.ktrKeys, x ∈ h.bloom) ∧ (∀ x ∈ h.ktrKeys, probe h fp x = true) := by
  have hkb := keysInBloom_load_database hload
  refine ⟨hkb, fun x hx => ?_⟩
  rw [probe]
  simp [hkb x hx]

theorem c6handler_eq : load_database_multithreaded 3 c6dir = some c6handler := by
  have hpos : 0 < estimate_total_kmers_in_db 3 c6dir := by decide
  simp only [c6handler, load_database_multithreaded, if_pos hpos, Option.getD_some]

/-- Witness for C8 at the concrete C6 build. -/
theorem catalog_subset_membership_witness :
    (∀ x ∈ c6handler.ktrKeys, x ∈ c6handler.bloom) ∧
    (∀ x ∈ c6handler.ktrKeys, probe c6handler (fun _ => false) x = true) :=
  catalog_subset_membership 3 c6dir c6handler c6handler_eq (fun _ => false)

theorem matchedSet_eq_inter (h : Handler) (fp : Str → Bool) (q : Finset Str) (ref : Str)
    (hdd : DDInv h) (hins : ∀ x ∈ h.ktrKeys, probe h fp x = true) :
    matchedSet h fp q ref = q ∩ get_reference_kmers h ref := by
  ext x
  simp only [matchedSet, get_reference_kmers, Finset.mem_filter, Finset.mem_inter]
  constructor
  · rintro ⟨hq, hp, hv⟩
    refine ⟨hq, ?_, hv⟩
    by_contra hk
    rw [hdd x hk] at hv
    exact absurd hv (Finset.not_mem_empty ref)
  · rintro ⟨hq, hk, hv⟩
    exact ⟨hq, hins x hk, hv⟩

/-- C10: for every emitted (query, reference) row, provided the
membership set reports present for every catalogued k-mer (which the
build guarantees, C8) and the reverse index satisfies its `defaultdict`
representation invariant, the reported Matched k-mers value equals
`|Q ∩ R|`, and that same intersection size is the numerator of both
`Jacc` and `Qcov` of the row. -/
theorem matched_equals_intersection (h : Handler) (fp : Str → Bool) (name data : Str) (row : Row)
    (hrow : row ∈ matchRows h fp name data)
    (hdd : DDInv h)
    (hins : ∀ x ∈ h.ktrKeys, probe h fp x = true) :
    row.matchedKmers
      = (queryKmerSet h data ∩ get_reference_kmers h row.reference).card ∧
    row.jacc = (row.matchedKmers : ℚ) /
      ((queryKmerSet h data ∪ get_reference_kmers h row.reference).card : ℚ) ∧
    row.qcov = (row.matchedKmers : ℚ) /
      ((get_reference_kmers h row.reference).card : ℚ) := by
  rw [matchRows] at hrow
  obtain ⟨ref, href, rfl⟩ := Finset.mem_image.mp hrow
  rw [mkRow_reference, mkRow_matchedKmers,
    matchedSet_eq_inter h fp (queryKmerSet h data) ref hdd hins]
  obtain ⟨x, hxq, hxp, hxv⟩ := (mem_matchedRefs_iff h fp (queryKmerSet h data) ref).mp href
  have hxk : x ∈ h.ktrKeys := by
    by_contra hk
    rw [hdd x hk] at hxv
    exact absurd hxv (Finset.not_mem_empty ref)
  have hq : 0 < (queryKmerSet h data).card := Finset.card_pos.mpr ⟨x, hxq⟩
  have hr : 0 < (get_reference_kmers h ref).card :=
    Finset.card_pos.mpr ⟨x, Finset.mem_filter.mpr ⟨hxk, hxv⟩⟩
  exact ⟨rfl, (mkRow_scores_pos h fp name (queryKmerSet h data) ref hq hr).1,
    (mkRow_scores_pos h fp name (queryKmerSet h data) ref hq hr).2⟩

/-- Witness for C10 at the concrete C6 instance; the `defaultdict` and
catalogued-probe hypotheses hold of the built index, and the
row-membership hypothesis is discharged by computation. -/
theorem matched_equals_intersection_witness :
    c6row.matchedKmers
      = (queryKmerSet c6handler ("ACGTACGT".toList) ∩
          get_reference_kmers c6handler c6row.reference).card ∧
    c6row.jacc = (c6row.matchedKmers : ℚ) /
      ((queryKmerSet c6handler ("ACGTACGT".toList) ∪
          get_reference_kmers c6handler c6row.reference).card : ℚ) ∧
    c6row.qcov = (c6row.matchedKmers : ℚ) /
      ((get_reference_kmers c6handler c6row.reference).card : ℚ) := by
  have hdd : DDInv c6handler := ddInv_load_database c6handler_eq
  have hkb : KeysInBloom c6handler := keysInBloom_load_database c6handler_eq
  refine matched_equals_intersection c6handler (fun _ => false) ("q".toList) ("ACGTACGT".toList)
    c6row ?_ hdd ?_
  · have hrefs : matchedRefs c6handler (fun _ => false)
        (queryKmerSet c6handler ("ACGTACGT".toList)) = {"ref1".toList} := by decide
    rw [matchRows, hrefs, Finset.image_singleton]
    exact Finset.mem_singleton.mpr rfl
  · intro x hx
    rw [probe]
    simp [hkb x hx]

theorem matchedSet_congr_fp (h : Handler) (fp fp' : Str → Bool) (q : Finset Str) (ref : Str)
    (hdd : DDInv h) (hagree : ∀ x ∈ h.ktrKeys, fp x = fp' x) :
    matchedSet h fp q ref = matchedSet h fp' q ref := by
  ext x
  simp only [matchedSet, Finset.mem_filter]
  by_cases hv : ref ∈ h.ktrVal x
  · have hk : x ∈ h.ktrKeys := by
      by_contra hk
      rw [hdd x hk] at hv
      exact absurd hv (Finset.not_mem_empty ref)
    rw [probe, probe, hagree x hk]
  · constructor
    · rintro ⟨_, _, hv2⟩; exact absurd hv2 hv
    · rintro ⟨_, _, hv2⟩; exact absurd hv2 hv

theorem matchedRefs_congr_fp (h : Handler) (fp fp' : Str → Bool) (q : Finset Str)
    (hdd : DDInv h) (hagree : ∀ x ∈ h.ktrKeys, fp x = fp' x) :
    matchedRefs h fp q = matchedRefs h fp' q := by
  ext ref
  rw [mem_matchedRefs_iff, mem_matchedRefs_iff]
  constructor
  · rintro ⟨x, hxq, hxp, hxv⟩
    have hk : x ∈ h.ktrKeys := by
      by_contra hk
      rw [hdd x hk] at hxv
      exact absurd hxv (Finset.not_mem_empty ref)
    refine ⟨x, hxq, ?_, hxv⟩
    rwa [probe, ← hagree x hk, ← probe]
  · rintro ⟨x, hxq, hxp, hxv⟩
    have hk : x ∈ h.ktrKeys := by
      by_contra hk
      rw [hdd x hk] at hxv
      exact absurd hxv (Finset.not_mem_empty ref)
    refine ⟨x, hxq, ?_, hxv⟩
    rwa [probe, hagree x hk, ← probe]

theorem mkRow_congr_fp (h : Handler) (fp fp' : Str → Bool) (name : Str) (q : Finset Str)
    (ref : Str) (hdd : DDInv h) (hagree : ∀ x ∈ h.ktrKeys, fp x = fp' x) :
    mkRow h fp name q ref = mkRow h fp' name q ref := by
  simp only [mkRow]
  rw [matchedSet_congr_fp h fp fp' q ref hdd hagree]

/-- C4: a k-mer with no entry in the reverse index never contributes to
the matched set of any output row, and the emitted rows are unchanged
under any probe result for k-mers absent from the catalog: two
false-positive oracles agreeing on the catalogued k-mers give identical
rows. -/
theorem absent_kmer_attribution_neutral (h : Handler) (fp fp' : Str → Bool) (name data : Str)
    (hdd : DDInv h) (hagree : ∀ x ∈ h.ktrKeys, fp x = fp' x) :
    matchRows h fp name data = matchRows h fp' name data ∧
    ∀ ref x, x ∈ matchedSet h fp (queryKmerSet h data) ref → x ∈ h.ktrKeys := by
  constructor
  · rw [matchRows, matchRows,
      matchedRefs_congr_fp h fp fp' (queryKmerSet h data) hdd hagree]
    exact Finset.image_congr
      (fun ref _ => mkRow_congr_fp h fp fp' name (queryKmerSet h data) ref hdd hagree)
  · intro ref x hx
    obtain ⟨_, _, hv⟩ := Finset.mem_filter.mp hx
    by_contra hk
    rw [hdd x hk] at hv
    exact absurd hv (Finset.not_mem_empty ref)

/-- Witness for C4 at the C6 build: the all-false oracle and an oracle
that fires exactly on uncatalogued k-mers emit identical rows. -/
theorem absent_kmer_attribution_neutral_witness :
    matchRows c6handler (fun _ => false) ("q".toList) ("ACGTACGT".toList)
      = matchRows c6handler (fun x => decide (x ∉ c6handler.ktrKeys)) ("q".toList)
          ("ACGTACGT".toList) ∧
    ∀ ref x, x ∈ matchedSet c6handler (fun _ => false)
        (queryKmerSet c6handler ("ACGTACGT".toList)) ref → x ∈ c6handler.ktrKeys := by
  refine absent_kmer_attribution_neutral c6handler (fun _ => false)
    (fun x => decide (x ∉ c6handler.ktrKeys)) ("q".toList) ("ACGTACGT".toList)
    (ddInv_load_database c6handler_eq) ?_
  intro x hx
  simp [hx]

/-- A loaded session state for C5: empty index, `k = 1`. -/
def c5handler : Handler := freshHandler 1

/-- A false-positive oracle that fires on the (uncatalogued) query
k-mer. -/
def c5fp : Str → Bool := fun _ => true

/-- One query record streaming the single-letter sequence `A`. -/
def c5queries : List (Str × Str) := [("q".toList, "A".toList)]

/-- C5 counterexample: running `match_sequences` does NOT leave the
loaded state unchanged.  With a membership-set false positive on the
uncatalogued query k-mer `A`, the probe loop's subscript access
`kmer_to_reference[kmer]` auto-vivifies `A` as a key of the
`defaultdict`, so the reverse index's key set grows. -/
theorem match_mutates_state_cex :
    (match_sequences c5handler c5fp c5queries).2 ≠ c5handler := by
  intro heq
  have hk : (match_sequences c5handler c5fp c5queries).2.ktrKeys = c5handler.ktrKeys :=
    congrArg Handler.ktrKeys heq
  exact absurd hk (by decide)

theorem match_sequences_snd (fp : Str → Bool) (queries : List (Str × Str)) :
    ∀ (acc : List (Finset Row) × Handler),
      (queries.foldl
        (fun acc q => (acc.1 ++ [matchRows acc.2 fp q.1 q.2], matchStateAfter acc.2 fp q.2))
        acc).2
      = queries.foldl (fun h q => matchStateAfter h fp q.2) acc.2 := by
  induction queries with
  | nil => intro acc; rfl
  | cons q qs ih => intro acc; exact ih _

/-- C5 amended: after `match_sequences`, the membership set, the
reverse-index value function, the raw-count map, the accession map and
the stored sequences are all unchanged, and the reverse index's key set
changes only by growing with probe-positive query k-mers (vivified with
the empty reference set, hence invisible to every lookup that reports
rows); the state is bit-identical only when every probe-positive query
k-mer is already catalogued. -/
theorem match_frame_amended (h : Handler) (fp : Str → Bool) (queries : List (Str × Str)) :
    (match_sequences h fp queries).2.kmer_size = h.kmer_size ∧
    (match_sequences h fp queries).2.bloom = h.bloom ∧
    (match_sequences h fp queries).2.ktrVal = h.ktrVal ∧
    (match_sequences h fp queries).2.reference_kmer_count = h.reference_kmer_count ∧
    (match_sequences h fp queries).2.reference_gca_map = h.reference_gca_map ∧
    (match_sequences h fp queries).2.reference_sequences = h.reference_sequences ∧
    h.ktrKeys ⊆ (match_sequences h fp queries).2.ktrKeys ∧
    ∀ x ∈ (match_sequences h fp queries).2.ktrKeys,
      x ∈ h.ktrKeys ∨ (probe h fp x = true ∧ ∃ q ∈ queries, x ∈ queryKmerSet h q.2) := by
  rw [match_sequences, match_sequences_snd fp queries]
  induction queries generalizing h with
  | nil =>
    exact ⟨rfl, rfl, rfl, rfl, rfl, rfl, Finset.Subset.refl _, fun x hx => Or.inl hx⟩
  | cons q qs ih =>
    obtain ⟨h1, h2, h3, h4, h5, h6, h7, h8⟩ := ih (matchStateAfter h fp q.2)
    refine ⟨h1, h2, h3, h4, h5, h6, ?_, ?_⟩
    · refine Finset.Subset.trans ?_ h7
      exact Finset.subset_union_left
    · intro x hx
      rcases h8 x hx with hx1 | hx1
      · rcases Finset.mem_union.mp hx1 with hx2 | hx2
        · exact Or.inl hx2
        · obtain ⟨hxq, hxp⟩ := Finset.mem_filter.mp hx2
          exact Or.inr ⟨hxp, q, List.mem_cons_self q qs, hxq⟩
      · obtain ⟨hxp, q1, hq1, hxq⟩ := hx1
        exact Or.inr ⟨hxp, q1, List.mem_cons_of_mem q hq1, hxq⟩

theorem load_save_eq (h h0 : Handler) (hk : h0.kmer_size = h.kmer_size) :
    load_bloom_filter h0 (save_bloom_filter h) = h := by
  rw [load_bloom_filter, save_bloom_filter, hk]

/-- C1: persistence round trip.  Saving a built index with
`save_bloom_filter` and reloading it with `load_bloom_filter` into a
matching-session handler restores every persisted field, so running
matching on the reloaded index produces exactly the same output rows
(for every query stream and every probe behaviour) as matching against
the in-memory index before persistence.  `kmer_size` is not persisted:
the session handler must carry the same k (as it does when both phases
use the same `--kmer_size`, e.g. the default 21). -/
theorem save_load_roundtrip_matching (h h0 : Handler) (fp : Str → Bool)
    (queries : List (Str × Str)) (hk : h0.kmer_size = h.kmer_size) :
    (match_sequences (load_bloom_filter h0 (save_bloom_filter h)) fp queries).1
      = (match_sequences h fp queries).1 := by
  rw [load_save_eq h h0 hk]

/-- Witness for C1: the C6 corpus saved and reloaded into a fresh
default-parameter handler with the same k, matched on the C6 query. -/
theorem save_load_roundtrip_matching_witness :
    (match_sequences (load_bloom_filter (freshHandler 3) (save_bloom_filter c6handler))
      (fun _ => false) [("q".toList, "ACGTACGT".toList)]).1
      = (match_sequences c6handler (fun _ => false) [("q".toList, "ACGTACGT".toList)]).1 :=
  save_load_roundtrip_matching c6handler (freshHandler 3) (fun _ => false)
    [("q".toList, "ACGTACGT".toList)] (by decide)

/-- The C7 counterexample directory: one `.fna` file holding a single
sequence line and no header at all. -/
def c7dir : Dir := [("a.fna".toList, ["A".toList])]

/-- C7 counterexample: the claim's consequence fails.  On a header-less
`.fna` file the estimation pass counts the accumulated body (1 k-mer
at `k = 1`), while the build pass never flushes a record with no truthy
reference name and ingests 0 k-mers — so the capacity estimate EXCEEDS
the ingested total. -/
theorem estimate_exceeds_ingested_cex :
    estimate_total_kmers_in_db 1 c7dir = 1 ∧
    build_ingested_total 1 c7dir = 0 ∧
    ¬ (estimate_total_kmers_in_db 1 c7dir ≤ build_ingested_total 1 c7dir) := by
  decide

/-- The stripped body lines of a record, concatenated. -/
def joinStrips (body : List Str) : Str := (body.map pyStrip).flatten

/-- The raw lines of a FASTA record (header, body). -/
def recLines (r : Str × List Str) : List Str := r.1 :: r.2

/-- The raw lines of a list of FASTA records. -/
def recsLines (recs : List (Str × List Str)) : List Str := (recs.map recLines).flatten

/-- A well-formed record: the stripped header carries the marker and a
nonempty extracted reference name, and no body line strips to a header. -/
def WFRec (r : Str × List Str) : Prop :=
  lineIsHeader (pyStrip r.1) = true ∧
  (extract_reference_name (pyStrip r.1)).isEmpty = false ∧
  ∀ b ∈ r.2, lineIsHeader (pyStrip b) = false

/-- A well-formed FASTA file: its lines are exactly a list of
well-formed records. -/
def WFFile (lines : List Str) : Prop :=
  ∃ recs, lines = recsLines recs ∧ ∀ r ∈ recs, WFRec r

theorem addKmersCount_eq (k : Nat) (s : Str) :
    addKmersCount k s = count_kmers_in_sequence k s := by
  rw [addKmersCount, count_kmers_in_sequence, extract_kmers]
  by_cases hk : k ≤ s.length
  · rw [pyRange_pos (by omega), if_pos hk]
    simp only [List.length_map, List.length_range]
    omega
  · rw [pyRange_nonpos (by omega), if_neg hk]
    rfl

theorem header_ne_nil {s : Str} (h : lineIsHeader s = true) : s ≠ [] := by
  cases s with
  | nil => exact absurd h (by decide)
  | cons c cs => exact List.cons_ne_nil c cs

theorem estimateLoop_body (k : Nat) (body : List Str)
    (hb : ∀ b ∈ body, lineIsHeader (pyStrip b) = false) :
    ∀ (rest : List Str) (seq : Str),
      estimateLoop k (body ++ rest) seq = estimateLoop k rest (seq ++ joinStrips body) := by
  induction body with
  | nil => intro rest seq; simp [joinStrips]
  | cons b bs ih =>
    intro rest seq
    have hbh : lineIsHeader (pyStrip b) = false := hb b (List.mem_cons_self b bs)
    have hbs : ∀ x ∈ bs, lineIsHeader (pyStrip x) = false :=
      fun x hx => hb x (List.mem_cons_of_mem b hx)
    show estimateLoop k (b :: (bs ++ rest)) seq = _
    by_cases hbe : pyStrip b = []
    · rw [estimateLoop, if_pos hbe, ih hbs rest seq]
      have : joinStrips (b :: bs) = joinStrips bs := by
        simp [joinStrips, hbe]
      rw [this]
    · rw [estimateLoop, if_neg hbe, hbh]
      simp only [Bool.false_eq_true, if_false]
      rw [ih hbs rest (seq ++ pyStrip b)]
      have : joinStrips (b :: bs) = pyStrip b ++ joinStrips bs := by
        simp [joinStrips]
      rw [this, List.append_assoc]

theorem estimateLoop_records (k : Nat) (recs : List (Str × List Str))
    (hwf : ∀ r ∈ recs, WFRec r) :
    ∀ seq, estimateLoop k (recsLines recs) seq
      = count_kmers_in_sequence k seq
        + (recs.map (fun r => count_kmers_in_sequence k (joinStrips r.2))).sum := by
  induction recs with
  | nil => intro seq; simp [recsLines, estimateLoop]
  | cons r rs ih =>
    intro seq
    have hwr := hwf r (List.mem_cons_self r rs)
    have hwrs : ∀ x ∈ rs, WFRec x := fun x hx => hwf x (List.mem_cons_of_mem r hx)
    have hlines : recsLines (r :: rs) = r.1 :: (r.2 ++ recsLines rs) := by
      simp [recsLines, recLines]
    rw [hlines, estimateLoop, if_neg (header_ne_nil hwr.1), hwr.1]
    simp only [if_true]
    rw [estimateLoop_body k r.2 hwr.2.2 (recsLines rs) [], ih hwrs, List.nil_append]
    simp [Nat.add_assoc]

/-- The count of the flush pending at end of file. -/
def pendingFlush (k : Nat) (cur : Option Str) (sd : List Str) : Nat :=
  if truthyRef cur ∧ sd ≠ [] then addKmersCount k sd.flatten else 0

theorem buildCountLoop_body (k : Nat) (body : List Str)
    (hb : ∀ b ∈ body, lineIsHeader (pyStrip b) = false) :
    ∀ (rest : List Str) (cur : Option Str) (sd : List Str),
      buildCountLoop k (body ++ rest) cur sd
        = buildCountLoop k rest cur (sd ++ body.map pyStrip) := by
  induction body with
  | nil => intro rest cur sd; simp
  | cons b bs ih =>
    intro rest cur sd
    have hbh : lineIsHeader (pyStrip b) = false := hb b (List.mem_cons_self b bs)
    have hbs : ∀ x ∈ bs, lineIsHeader (pyStrip x) = false :=
      fun x hx => hb x (List.mem_cons_of_mem b hx)
    show buildCountLoop k (b :: (bs ++ rest)) cur sd = _
    rw [buildCountLoop, hbh]
    simp only [Bool.false_eq_true, if_false]
    rw [ih hbs rest cur (sd ++ [pyStrip b])]
    simp [List.append_assoc]

theorem pendingFlush_some (k : Nat) (name : Str) (body : List Str) (hk : 1 ≤ k)
    (hname : truthyRef (some name) = true) :
    pendingFlush k (some name) (body.map pyStrip)
      = count_kmers_in_sequence k (joinStrips body) := by
  cases body with
  | nil =>
    rw [pendingFlush, if_neg (by simp)]
    rw [joinStrips]
    simp only [List.map_nil, List.flatten_nil]
    rw [count_kmers_in_sequence, if_neg (by simp; omega)]
  | cons b bs =>
    rw [pendingFlush, if_pos ⟨hname, by simp⟩, addKmersCount_eq]
    rfl

theorem buildCountLoop_records (k : Nat) (hk : 1 ≤ k) (recs : List (Str × List Str))
    (hwf : ∀ r ∈ recs, WFRec r) :
    ∀ (cur : Option Str) (sd : List Str), (truthyRef cur = true ∨ sd = []) →
      buildCountLoop k (recsLines recs) cur sd
        = pendingFlush k cur sd
          + (recs.map (fun r => count_kmers_in_sequence k (joinStrips r.2))).sum := by
  induction recs with
  | nil =>
    intro cur sd hcur
    simp only [recsLines, List.map_nil, List.flatten_nil, List.sum_nil, Nat.add_zero]
    rfl
  | cons r rs ih =>
    intro cur sd hcur
    have hwr := hwf r (List.mem_cons_self r rs)
    have hwrs : ∀ x ∈ rs, WFRec x := fun x hx => hwf x (List.mem_cons_of_mem r hx)
    have hname : truthyRef (some (extract_reference_name (pyStrip r.1))) = true := by
      rw [truthyRef, hwr.2.1]
      rfl
    have hlines : recsLines (r :: rs) = r.1 :: (r.2 ++ recsLines rs) := by
      simp [recsLines, recLines]
    rw [hlines, buildCountLoop, hwr.1]
    simp only [if_true]
    by_cases hfl : truthyRef cur = true ∧ sd ≠ []
    · rw [if_pos hfl, buildCountLoop_body k r.2 hwr.2.2 (recsLines rs) _ [],
        List.nil_append, ih hwrs _ _ (Or.inl hname),
        pendingFlush_some k _ r.2 hk hname, pendingFlush, if_pos hfl]
      simp [Nat.add_assoc]
    · have hsd : sd = [] := by
        rcases hcur with hcur | hcur
        · by_contra hne
          exact hfl ⟨hcur, hne⟩
        · exact hcur
      rw [if_neg hfl, hsd, buildCountLoop_body k r.2 hwr.2.2 (recsLines rs) _ [],
        List.nil_append, ih hwrs _ _ (Or.inl hname),
        pendingFlush_some k _ r.2 hk hname, pendingFlush, if_neg (by simp)]
      simp [Nat.add_assoc]

theorem process_file_count_eq_estimate (k : Nat) (hk : 1 ≤ k) (lines : List Str)
    (hwf : WFFile lines) : process_file_count k lines = estimate_kmers k lines := by
  obtain ⟨recs, rfl, hrecs⟩ := hwf
  rw [process_file_count, estimate_kmers,
    buildCountLoop_records k hk recs hrecs none [] (Or.inr rfl),
    estimateLoop_records k recs hrecs []]
  have h1 : pendingFlush k none [] = 0 := rfl
  have h2 : count_kmers_in_sequence k [] = 0 := by
    rw [count_kmers_in_sequence]
    simp only [List.length_nil]
    rw [if_neg (by omega)]
  rw [h1, h2]

theorem isBuildFile_of_isEstimatedFile (p : Str) (h : isEstimatedFile p = true) :
    isBuildFile p = true := by
  simp only [isEstimatedFile, Bool.or_eq_true] at h
  simp only [isBuildFile, Bool.or_eq_true]
  tauto

/-- C7 amended: the capacity-estimation pass sums per-file estimates
only over `.fna`/`.fna.gz` files, while the build ingests those plus
`.fasta`/`.fasta.gz`; for positive `k`, in every directory whose
estimation-scanned files are well-formed FASTA (each a sequence of
records: marker header with nonempty extracted name, then non-header
body lines) the total capacity estimate is at most the total number of
k-mers ingested during the build.  (Unconditionally the claim is false:
a header-less `.fna` file is counted by the estimate but never flushed
by the build, see the counterexample.) -/
theorem estimate_le_ingested_wellformed (k : Nat) (d : Dir) (hk : 1 ≤ k)
    (hwf : ∀ f ∈ d, isEstimatedFile f.1 = true → WFFile f.2) :
    estimate_total_kmers_in_db k d ≤ build_ingested_total k d := by
  rw [estimate_total_kmers_in_db, build_ingested_total]
  have hmap : (d.filter (fun f => isEstimatedFile f.1)).map (fun f => estimate_kmers k f.2)
      = (d.filter (fun f => isEstimatedFile f.1)).map (fun f => process_file_count k f.2) := by
    apply List.map_congr_left
    intro f hf
    obtain ⟨hfd, hfe⟩ := List.mem_filter.mp hf
    exact (process_file_count_eq_estimate k hk f.2 (hwf f hfd hfe)).symm
  rw [hmap]
  have hsub := List.Sublist.map (fun (f : Str × List Str) => process_file_count k f.2)
      (List.monotone_filter_right d (fun f hf => isBuildFile_of_isEstimatedFile f.1 hf))
  exact List.Sublist.sum_le_sum hsub (fun a _ => Nat.zero_le a)

/-- Witness for the amended C7 at the concrete C6 directory with
`k = 3`, well-formedness discharged by computation. -/
theorem estimate_le_ingested_wellformed_witness :
    estimate_total_kmers_in_db 3 c6dir ≤ build_ingested_total 3 c6dir := by
  refine estimate_le_ingested_wellformed 3 c6dir (by decide) ?_
  intro f hf _
  have hf1 : f = ("db/ref1.fna".toList, [">ref1".toList, "ACGTACGT".toList]) := by
    simpa [c6dir] using hf
  rw [hf1]
  refine ⟨[(">ref1".toList, ["ACGTACGT".toList])], by decide, ?_⟩
  intro r hr
  have hr1 : r = (">ref1".toList, ["ACGTACGT".toList]) := by simpa using hr
  rw [hr1]
  exact ⟨by decide, by decide, by decide⟩

/-- The C9 counterexample file: a valid record `A`, then a record whose
header line `hdrB` is missing the marker. -/
def c9lines : List Str := [">A".toList, "GG".toList, "hdrB".toList, "TT".toList]

/-- The state after building the C9 file with `k = 2`. -/
def c9handler : Handler := process_file_state ("Unknown".toList) (freshHandler 2) c9lines

/-- C9 counterexample: the record with the marker-less header `hdrB` is
NOT assigned the reference id `"Unknown"`: the build never invokes the
header-name extractor on it (the extractor is guarded by the marker
test), so `"Unknown"` receives no k-mers at all while the malformed
record's lines merge into the preceding reference `A` (raw count
`7 = len("GGhdrBTT") - 2 + 1`). -/
theorem malformed_header_merges_cex :
    c9handler.reference_kmer_count ("Unknown".toList) = 0 ∧
    get_reference_kmers c9handler ("Unknown".toList) = ∅ ∧
    c9handler.reference_kmer_count ("A".toList) = 7 := by
  decide

/-- C9 amended: the header-name extractor, given a line missing the
marker, warns and returns `"Unknown"` — but during the build it is only
ever invoked on marker-bearing lines: a line whose stripped form lacks
the marker is appended to the current record's sequence data, so its
k-mer contributions merge into the enclosing reference (or into no
reference when no truthy header precedes), never into `"Unknown"`. -/
theorem malformed_header_amended :
    (∀ l : Str, lineIsHeader l = false → extract_reference_name l = "Unknown".toList) ∧
    (∀ (gca : Str) (h : Handler) (cur : Option Str) (sd : List Str) (lines : List Str),
      (∀ l ∈ lines, lineIsHeader (pyStrip l) = false) →
      processLoop gca lines h cur sd = processLoop gca [] h cur (sd ++ lines.map pyStrip)) := by
  constructor
  · intro l hl
    rw [extract_reference_name, if_neg (by simp [hl])]
  · intro gca h cur sd lines
    induction lines generalizing sd with
    | nil => intro _; simp
    | cons l ls ih =>
      intro hl
      have hlh : lineIsHeader (pyStrip l) = false := hl l (List.mem_cons_self l ls)
      show processLoop gca (l :: ls) h cur sd = _
      rw [processLoop, hlh]
      simp only [Bool.false_eq_true, if_false]
      rw [ih (sd ++ [pyStrip l]) (fun x hx => hl x (List.mem_cons_of_mem l hx))]
      simp [List.append_assoc]

/-- Witness for the amended C9 at the marker-less line `hdrB` and a
concrete build state, hypotheses discharged by computation. -/
theorem malformed_header_amended_witness :
    extract_reference_name ("hdrB".toList) = "Unknown".toList ∧
    processLoop ("Unknown".toList) ["TT".toList] (freshHandler 2) (some ("A".toList))
        ["GG".toList]
      = processLoop ("Unknown".toList) [] (freshHandler 2) (some ("A".toList))
          (["GG".toList] ++ ["TT".toList].map pyStrip) :=
  ⟨malformed_header_amended.1 ("hdrB".toList) (by decide),
   malformed_header_amended.2 ("Unknown".toList) (freshHandler 2) (some ("A".toList))
     ["GG".toList] ["TT".toList] (by decide)⟩
